import Mathlib

/-!
# Verification of the data-fingerprint pipeline

A shallow embedding of `data_fingerprint.py`: the decimal-separator
detector, the datetime standardizer, the canonicalization steps shared by
the two fingerprint modes, and the two SHA-256 based fingerprint
functions.  Machine arithmetic is modelled on `Nat` with explicit
`% 2 ^ 32` reductions; SHA-256 is implemented in full so that concrete
digests can be evaluated by the kernel.

Modelling notes, tied to the source:
* A pandas `DataFrame` is modelled as a list of named, homogeneously
  typed columns (`Table`).  The loader produces `object` (string),
  `int64` and `datetime64` columns for the data appearing in the claims;
  float columns are not modelled, since their behaviour (numpy
  round-half-even on binary floats, shortest round-trip `str`) is
  IEEE-754 specific.
* `df.round(6)` is the identity on integer columns, and `reset_index`
  is the identity in a model whose rows are purely positional; both
  steps are therefore omitted from `canonicalTable`.
* Library calls are embedded by their documented behaviour:
  `hashlib.sha256(...).hexdigest()` as `sha256hex`,
  `pd.to_datetime(col, format=f, errors='raise')` as an exact `strptime`
  over the format directives used by the source, and the free-form
  `pd.to_datetime(col, errors='coerce')` fallback as `pdInfer`, the
  ISO fast path (surrounding whitespace stripped) of that parser.
-/

/-! ## SHA-256 over byte lists -/

def w32 (x : Nat) : Nat := x % 4294967296

def rotr32 (n x : Nat) : Nat := Nat.lor (x >>> n) (w32 (x <<< (32 - n)))

def bigSigma0 (x : Nat) : Nat := (rotr32 2 x) ^^^ (rotr32 13 x) ^^^ (rotr32 22 x)

def bigSigma1 (x : Nat) : Nat := (rotr32 6 x) ^^^ (rotr32 11 x) ^^^ (rotr32 25 x)

def smallSigma0 (x : Nat) : Nat := (rotr32 7 x) ^^^ (rotr32 18 x) ^^^ (x >>> 3)

def smallSigma1 (x : Nat) : Nat := (rotr32 17 x) ^^^ (rotr32 19 x) ^^^ (x >>> 10)

def chNat (x y z : Nat) : Nat := (x &&& y) ^^^ ((4294967295 - x) &&& z)

def majNat (x y z : Nat) : Nat := (x &&& y) ^^^ (x &&& z) ^^^ (y &&& z)

/-- The 64 SHA-256 round constants of FIPS 180-4, in decimal. -/
def sha256K : List Nat :=
  [1116352408, 1899447441, 3049323471, 3921009573, 961987163, 1508970993,
   2453635748, 2870763221, 3624381080, 310598401, 607225278, 1426881987,
   1925078388, 2162078206, 2614888103, 3248222580, 3835390401, 4022224774,
   264347078, 604807628, 770255983, 1249150122, 1555081692, 1996064986,
   2554220882, 2821834349, 2952996808, 3210313671, 3336571891, 3584528711,
   113926993, 338241895, 666307205, 773529912, 1294757372, 1396182291,
   1695183700, 1986661051, 2177026350, 2456956037, 2730485921, 2820302411,
   3259730800, 3345764771, 3516065817, 3600352804, 4094571909, 275423344,
   430227734, 506948616, 659060556, 883997877, 958139571, 1322822218,
   1537002063, 1747873779, 1955562222, 2024104815, 2227730452, 2361852424,
   2428436474, 2756734187, 3204031479, 3329325298]

/-- The eight SHA-256 initial hash values of FIPS 180-4, in decimal. -/
def sha256H0 : List Nat :=
  [1779033703, 3144134277, 1013904242, 2773480762,
   1359893119, 2600822924, 528734635, 1541459225]

def bytesBE : Nat → Nat → List Nat
  | 0, _ => []
  | n + 1, v => bytesBE n (v / 256) ++ [v % 256]

def sha256pad (msg : List Nat) : List Nat :=
  let len := msg.length
  let k := (119 - len % 64) % 64
  msg ++ (128 :: List.replicate k 0) ++ bytesBE 8 (8 * len)

def toWords : List Nat → List Nat
  | a :: b :: c :: d :: rest => (((a * 256 + b) * 256 + c) * 256 + d) :: toWords rest
  | _ => []

def toBlocksAux : Nat → List Nat → List (List Nat)
  | 0, _ => []
  | _, [] => []
  | fuel + 1, a :: rest => ((a :: rest).take 64) :: toBlocksAux fuel ((a :: rest).drop 64)

def toBlocks (l : List Nat) : List (List Nat) := toBlocksAux l.length l

def scheduleStep (acc : List Nat) (i : Nat) : List Nat :=
  acc ++ [w32 (smallSigma1 (acc.getD (i - 2) 0) + acc.getD (i - 7) 0 +
               smallSigma0 (acc.getD (i - 15) 0) + acc.getD (i - 16) 0)]

def schedule (ws : List Nat) : List Nat :=
  (List.range 48).foldl (fun acc j => scheduleStep acc (j + 16)) ws

def roundStep (st : List Nat) (kw : Nat × Nat) : List Nat :=
  match st with
  | [a, b, c, d, e, f, g, h] =>
    let t1 := w32 (h + bigSigma1 e + chNat e f g + kw.1 + kw.2)
    let t2 := w32 (bigSigma0 a + majNat a b c)
    [w32 (t1 + t2), a, b, c, w32 (d + t1), e, f, g]
  | _ => st

def compressBlock (hs : List Nat) (block : List Nat) : List Nat :=
  let ws := schedule (toWords block)
  let st := (sha256K.zip ws).foldl roundStep hs
  List.zipWith (fun x y => w32 (x + y)) hs st

def sha256bytes (msg : List Nat) : List Nat :=
  ((toBlocks (sha256pad msg)).foldl compressBlock sha256H0).flatMap (bytesBE 4)

def hexDigit (n : Nat) : Char := if n < 10 then Char.ofNat (48 + n) else Char.ofNat (87 + n)

def byteHex (b : Nat) : String := String.mk [hexDigit (b / 16), hexDigit (b % 16)]

def charUtf8 (c : Char) : List Nat :=
  let n := c.toNat
  if n < 128 then [n]
  else if n < 2048 then [192 + n / 64, 128 + n % 64]
  else if n < 65536 then [224 + n / 4096, 128 + (n / 64) % 64, 128 + n % 64]
  else [240 + n / 262144, 128 + (n / 4096) % 64, 128 + (n / 64) % 64, 128 + n % 64]

def utf8Bytes (s : String) : List Nat := (s.data.map charUtf8).flatten

/-- `hashlib.sha256(s.encode('utf-8')).hexdigest()`: the lowercase hex
SHA-256 digest of the UTF-8 encoding of `s`. -/
def sha256hex (s : String) : String :=
  String.join ((sha256bytes (utf8Bytes s)).map byteHex)

/-! ## Python string primitives -/

/-- Python `str.strip()` on the whitespace that occurs in the data
handled here (ASCII whitespace). -/
def pyStrip (s : String) : String :=
  String.mk (((s.data.dropWhile Char.isWhitespace).reverse.dropWhile Char.isWhitespace).reverse)

/-- Python `<` on strings: lexicographic comparison by code point. -/
def charListLt : List Char → List Char → Bool
  | [], [] => false
  | [], _ :: _ => true
  | _ :: _, [] => false
  | a :: as, b :: bs =>
    if a.toNat < b.toNat then true
    else if b.toNat < a.toNat then false
    else charListLt as bs

/-- Python `<=` on strings (used by `sorted`). -/
def pyStrLe (a b : String) : Bool := !(charListLt b.data a.data)

def strLeRel : String → String → Prop := fun a b => pyStrLe a b = true

instance decStrLeRel : DecidableRel strLeRel :=
  fun a b => inferInstanceAs (Decidable (pyStrLe a b = true))

/-! ## Decimal-separator detection (`detect_decimal_separator`) -/

/-- Python `str.isdigit()` restricted to the ASCII digits that occur in
delimited numeric data: nonempty and all characters are digits. -/
def pyIsdigit (l : List Char) : Bool := !l.isEmpty && l.all Char.isDigit

/-- Python `str.split(sep)` for a single-character separator. -/
def splitOnChar (sep : Char) : List Char → List (List Char)
  | [] => [[]]
  | c :: rest =>
    let r := splitOnChar sep rest
    if c = sep then [] :: r
    else
      match r with
      | h :: t => (c :: h) :: t
      | [] => [[c]]

/-- `''.join(c for c in value if c.isdigit() or c in decimal_separators)`. -/
def cleanNumeric (v : String) : List Char :=
  v.data.filter (fun c => c.isDigit || c = ',' || c = '.')

/-- The per-cell test of the source loop: the separator occurs in the
cleaned value, and splitting on it yields exactly two all-digit parts. -/
def sepEvidenceCode (sep : Char) (v : String) : Bool :=
  let cleaned := cleanNumeric v
  if cleaned.contains sep then
    let parts := splitOnChar sep cleaned
    (parts.length == 2) && parts.all pyIsdigit
  else false

/-- One iteration of the row loop: empty rows are skipped (`if row:`),
otherwise every cell may add one piece of evidence to each counter. -/
def countRowSep (counts : Nat × Nat) (row : List String) : Nat × Nat :=
  if row.isEmpty then counts
  else row.foldl (fun cnt v =>
    (cnt.1 + (if sepEvidenceCode ',' v then 1 else 0),
     cnt.2 + (if sepEvidenceCode '.' v then 1 else 0))) counts

/-- `detect_decimal_separator`, on the parsed records of the file (header
first): skip the header, sample the next 10 records, count evidence for
`','` and `'.'`, and return `','` only on a strictly greater count. -/
def detect_decimal_separator (records : List (List String)) : Char :=
  let sample := (records.drop 1).take 10
  let counts := sample.foldl countRowSep (0, 0)
  if counts.2 < counts.1 then ',' else '.'

/-- Specification-side evidence predicate: the cell's cleaned value
splits on the candidate separator into exactly two all-digit parts. -/
def sepEvidence (sep : Char) (v : String) : Bool :=
  let parts := splitOnChar sep (cleanNumeric v)
  (parts.length == 2) && parts.all pyIsdigit

/-- Specification-side count: total evidence for a separator over the
first 10 data records after the header. -/
def evidenceCount (records : List (List String)) (sep : Char) : Nat :=
  (((records.drop 1).take 10).map (fun r => r.countP (sepEvidence sep))).sum

/-! ## Datetimes (`pd.to_datetime` / `strftime`) -/

structure PyDateTime where
  year : Nat
  month : Nat
  day : Nat
  hour : Nat
  minute : Nat
  second : Nat
deriving DecidableEq

/-- Read up to `max` leading digits, returning the value, the number of
digits read, and the rest of the input. -/
def takeDigitsAux : Nat → List Char → Nat → Nat → Nat × Nat × List Char
  | 0, s, v, k => (v, k, s)
  | _ + 1, [], v, k => (v, k, [])
  | m + 1, c :: rest, v, k =>
    if c.isDigit then takeDigitsAux m rest (10 * v + (c.toNat - 48)) (k + 1)
    else (v, k, c :: rest)

def takeDigits (maxLen : Nat) (s : List Char) : Nat × Nat × List Char :=
  takeDigitsAux maxLen s 0 0

def applyDirective (dir : Char) (v : Nat) (acc : PyDateTime) : PyDateTime :=
  match dir with
  | 'Y' => ⟨v, acc.month, acc.day, acc.hour, acc.minute, acc.second⟩
  | 'm' => ⟨acc.year, v, acc.day, acc.hour, acc.minute, acc.second⟩
  | 'd' => ⟨acc.year, acc.month, v, acc.hour, acc.minute, acc.second⟩
  | 'H' => ⟨acc.year, acc.month, acc.day, v, acc.minute, acc.second⟩
  | 'M' => ⟨acc.year, acc.month, acc.day, acc.hour, v, acc.second⟩
  | 'S' => ⟨acc.year, acc.month, acc.day, acc.hour, acc.minute, v⟩
  | _ => acc

/-- Field constraints of CPython's `_strptime` patterns: `%Y` is exactly
four digits, the other directives are one or two digits within range. -/
def directiveOk (dir : Char) (v k : Nat) : Bool :=
  match dir with
  | 'Y' => k == 4
  | 'm' => (1 ≤ k && k ≤ 2) && (1 ≤ v && v ≤ 12)
  | 'd' => (1 ≤ k && k ≤ 2) && (1 ≤ v && v ≤ 31)
  | 'H' => (1 ≤ k && k ≤ 2) && v ≤ 23
  | 'M' => (1 ≤ k && k ≤ 2) && v ≤ 59
  | 'S' => (1 ≤ k && k ≤ 2) && v ≤ 59
  | _ => false

def maxDigitsFor (dir : Char) : Nat := if dir = 'Y' then 4 else 2

def strptimeRun : List Char → List Char → PyDateTime → Option PyDateTime
  | [], s, acc => if s.isEmpty then some acc else none
  | '%' :: dir :: fmtRest, s, acc =>
    let r := takeDigits (maxDigitsFor dir) s
    if directiveOk dir r.1 r.2.1 then strptimeRun fmtRest r.2.2 (applyDirective dir r.1 acc)
    else none
  | c :: fmtRest, s, acc =>
    match s with
    | c' :: sRest => if c' = c then strptimeRun fmtRest sRest acc else none
    | [] => none

def isLeapYear (y : Nat) : Bool := (y % 4 == 0 && y % 100 != 0) || y % 400 == 0

def daysInMonth (y m : Nat) : Nat :=
  if m = 2 then (if isLeapYear y then 29 else 28)
  else if m = 4 ∨ m = 6 ∨ m = 9 ∨ m = 11 then 30
  else 31

def validDate (t : PyDateTime) : Bool :=
  (1 ≤ t.year && t.year ≤ 9999) && (1 ≤ t.day && t.day ≤ daysInMonth t.year t.month)

/-- `datetime.strptime(s, fmt)` semantics for the directives used by the
source: exact match of the whole string, then date validation.  Missing
fields keep `strptime`'s defaults (year 1900, month 1, day 1, midnight). -/
def strptime (fmt s : String) : Option PyDateTime :=
  (strptimeRun fmt.data s.data ⟨1900, 1, 1, 0, 0, 0⟩).filter validDate

def padNum (width n : Nat) : String :=
  let s := toString n
  String.mk (List.replicate (width - s.length) '0') ++ s

/-- `Series.dt.strftime` with the two formats used by the source
(`'%Y-%m-%d'` when `date_only`, else `'%Y-%m-%d %H:%M:%S'`). -/
def strftimeDT (date_only : Bool) (t : PyDateTime) : String :=
  let d := padNum 4 t.year ++ "-" ++ padNum 2 t.month ++ "-" ++ padNum 2 t.day
  if date_only then d
  else d ++ " " ++ padNum 2 t.hour ++ ":" ++ padNum 2 t.minute ++ ":" ++ padNum 2 t.second

def pdInferFormats : List String := ["%Y-%m-%d %H:%M:%S", "%Y-%m-%d %H:%M", "%Y-%m-%d"]

/-- The free-form `pd.to_datetime(col, errors='coerce')` fallback,
modelled on its ISO fast path: surrounding whitespace is tolerated and
ISO dates with optional time are accepted; anything else is `NaT`. -/
def pdInfer (s : String) : Option PyDateTime :=
  pdInferFormats.findSome? (fun f => strptime f (pyStrip s))

/-! ## Tables -/

/-- A pandas column as produced by the loader for the data in scope:
`object` columns hold strings and `None`/`NaN` cells, `int64` columns
hold integers, `datetime64` columns hold timestamps and `NaT` cells. -/
inductive Column where
  | obj (cells : List (Option String))
  | int64 (cells : List Int)
  | dt (cells : List (Option PyDateTime))
deriving DecidableEq

/-- A `DataFrame`: named columns in insertion order. -/
abbrev Table := List (String × Column)

def colLength (c : Column) : Nat :=
  match c with
  | .obj cs => cs.length
  | .int64 cs => cs.length
  | .dt cs => cs.length

def nRows (t : Table) : Nat :=
  match t with
  | [] => 0
  | nc :: _ => colLength nc.2

/-- All columns have the table's row count (§3 invariant of a loaded
`DataFrame`). -/
def WFTable (t : Table) : Prop := ∀ nc ∈ t, colLength nc.2 = nRows t

/-! ## `standardize_datetime_columns` -/

/-- The ordered format list of the source (`datetime_formats`). -/
def datetime_formats : List String :=
  ["%Y-%m-%d %H:%M:%S", "%d-%m-%Y %H:%M:%S", "%Y-%m-%d %H:%M", "%d-%m-%Y %H:%M",
   "%Y-%m-%d", "%d-%m-%Y"]

/-- `pd.to_datetime(cell, format=fmt, errors='raise')` succeeds on a
cell: null cells become `NaT` without error, strings must parse. -/
def cellParses (fmt : String) (c : Option String) : Bool :=
  match c with
  | none => true
  | some s => (strptime fmt s).isSome

/-- The `for fmt in datetime_formats: try ... break` loop: the first
format that parses the whole column wins, later formats are not tried. -/
def firstFormat : List String → List (Option String) → Option String
  | [], _ => none
  | f :: rest, cells => if cells.all (cellParses f) then some f else firstFormat rest cells

def convertExplicit (fmt : String) (cells : List (Option String)) : List (Option PyDateTime) :=
  cells.map (fun c => c.bind (strptime fmt))

def convertInfer (cells : List (Option String)) : List (Option PyDateTime) :=
  cells.map (fun c => c.bind pdInfer)

/-- `parsed_col.notnull().mean() >= 0.8`: at least 80 % of the cells
parse under free-form inference.  A `NaN` mean on an empty column
compares false, hence the positivity requirement; `count / len ≥ 0.8`
coincides with the rational comparison `5 * count ≥ 4 * len` for every
realistic length. -/
def inferAccepted (cells : List (Option String)) : Bool :=
  decide (0 < cells.length ∧ 4 * cells.length ≤ 5 * (convertInfer cells).countP Option.isSome)

/-- Effect of `standardize_datetime_columns` on one column: native
datetime columns are reformatted; object columns are parsed by the first
all-parsing explicit format, else by ≥ 80 % free-form inference, else
left unchanged; other columns are untouched. -/
def standardizeColumn (date_only : Bool) (c : Column) : Column :=
  match c with
  | .int64 cs => .int64 cs
  | .dt cs => .obj (cs.map (Option.map (strftimeDT date_only)))
  | .obj cs =>
    match firstFormat datetime_formats cs with
    | some f => .obj ((convertExplicit f cs).map (Option.map (strftimeDT date_only)))
    | none =>
      if inferAccepted cs then .obj ((convertInfer cs).map (Option.map (strftimeDT date_only)))
      else .obj cs

def standardize_datetime_columns (df : Table) (date_only : Bool) : Table :=
  df.map (fun nc => (nc.1, standardizeColumn date_only nc.2))

/-- The detection part of `standardize_datetime_columns`: whether a
column ends up in `datetime_cols` and is rewritten in place. -/
def columnDetected (c : Column) : Bool :=
  match c with
  | .dt _ => true
  | .int64 _ => false
  | .obj cs => (firstFormat datetime_formats cs).isSome || inferAccepted cs

/-! ## Canonicalization shared by both fingerprint modes -/

def colNameLe : (String × Column) → (String × Column) → Prop :=
  fun a b => pyStrLe a.1 b.1 = true

instance decColNameLe : DecidableRel colNameLe :=
  fun a b => inferInstanceAs (Decidable (pyStrLe a.1 b.1 = true))

/-- `df.reindex(sorted(df.columns), axis=1)`: stable sort of the columns
by name (Python `sorted` on strings). -/
def sortByName (t : Table) : Table := List.insertionSort colNameLe t

/-- `df[string_cols].apply(lambda x: x.str.strip())`: strip whitespace
on object columns; nulls stay null, other columns are untouched. -/
def stripColumn (c : Column) : Column :=
  match c with
  | .obj cs => .obj (cs.map (Option.map pyStrip))
  | c => c

/-- `df.fillna('').astype(str)` on one column. -/
def columnStrings (c : Column) : List String :=
  match c with
  | .obj cs => cs.map (fun v => match v with | none => "" | some s => s)
  | .int64 cs => cs.map (fun n => toString n)
  | .dt cs => cs.map (fun v => match v with | none => "" | some d => strftimeDT false d)

/-- The canonical all-string table both fingerprint functions build:
datetime standardization (full timestamp format), column sort by name,
whitespace strip, rounding (identity on the integer columns modelled),
null replacement and stringification. -/
def canonicalTable (df : Table) : List (String × List String) :=
  let df1 := standardize_datetime_columns df false
  let df2 := sortByName df1
  let df3 := df2.map (fun nc => (nc.1, stripColumn nc.2))
  df3.map (fun nc => (nc.1, columnStrings nc.2))

def numRows (c : List (String × List String)) : Nat :=
  match c with
  | [] => 0
  | col :: _ => col.2.length

/-- Row-major view of the canonical table: row `i` collects cell `i` of
every column in column order. -/
def tableRows (c : List (String × List String)) : List (List String) :=
  (List.range (numRows c)).map (fun i => c.map (fun col => col.2.getD i ""))

/-- `','.join(row.values)` of the order-independent mode: comma-join
with no quoting or escaping. -/
def rowStrings (c : List (String × List String)) : List String :=
  (tableRows c).map (String.intercalate ",")

/-! ## The two fingerprint modes -/

def needsQuoting (s : String) : Bool :=
  s.data.any (fun c => c = ',' || c = '"' || c = '\n' || c = '\r')

def csvEscape : List Char → List Char
  | [] => []
  | c :: rest => (if c = '"' then ['"', '"'] else [c]) ++ csvEscape rest

/-- One field of `df.to_csv`: minimal quoting, doubling inner quotes. -/
def csvField (s : String) : String :=
  if needsQuoting s then "\"" ++ String.mk (csvEscape s.data) ++ "\"" else s

/-- `df.to_csv(index=False, header=False, lineterminator='\n')` on the
canonical table: comma-joined fields, every record terminated by `'\n'`,
no header, no index. -/
def to_csv_string (c : List (String × List String)) : String :=
  String.join ((tableRows c).map (fun r => String.intercalate "," (r.map csvField) ++ "\n"))

/-- `generate_order_dependent_fingerprint`. -/
def generate_order_dependent_fingerprint (df : Table) : String :=
  sha256hex (to_csv_string (canonicalTable df))

/-- Python `sorted` on strings: stable sort, lexicographic by code
point. -/
def pySorted (l : List String) : List String := List.insertionSort strLeRel l

/-- The final phase of the order-independent mode, as a function of the
row strings: hash each row, sort the hex digests, concatenate with no
separator, and hash once more. -/
def oiOfRowStrings (rs : List String) : String :=
  sha256hex (String.join (pySorted (rs.map sha256hex)))

/-- `generate_order_independent_fingerprint`. -/
def generate_order_independent_fingerprint (df : Table) : String :=
  oiOfRowStrings (rowStrings (canonicalTable df))

/-! ## Row permutations and caller-visible effects -/

/-- Apply the same row reordering, given as a list of source indices, to
one column. -/
def permuteColumn (p : List Nat) (c : Column) : Column :=
  match c with
  | .obj cs => .obj (p.map (fun i => cs.getD i none))
  | .int64 cs => .int64 (p.map (fun i => cs.getD i 0))
  | .dt cs => .dt (p.map (fun i => cs.getD i none))

/-- The table whose row `k` is row `p k` of `t`, for a permutation `p`
of `0, …, nRows t - 1`. -/
def permuteRows (p : List Nat) (t : Table) : Table :=
  t.map (fun nc => (nc.1, permuteColumn p nc.2))

/-- `generate_order_dependent_fingerprint` together with the
caller-visible table after the call.  Inside the source function only
`standardize_datetime_columns` assigns into the caller's frame
(`df[col] = ...`); every later step (`reindex`, `reset_index`, `fillna`,
`astype`) rebinds `df` to a fresh copy, so the caller observes exactly
the standardized table. -/
def odFingerprintEffect (df : Table) : String × Table :=
  (generate_order_dependent_fingerprint df, standardize_datetime_columns df false)

/-- `generate_order_independent_fingerprint` with the caller-visible
table after the call (see `odFingerprintEffect`). -/
def oiFingerprintEffect (df : Table) : String × Table :=
  (generate_order_independent_fingerprint df, standardize_datetime_columns df false)

/-- Cell access in a canonical table: column `j`, row `i`. -/
def canonCell (df : Table) (j i : Nat) : String :=
  ((canonicalTable df).getD j ("", [])).2.getD i ""

/-! ## Concrete tables from the spec's scenarios -/

/-- Scenario A: columns `[b, a]`, rows `[(b=1, a="x"), (b=2, a="y")]`. -/
def exampleTableA : Table :=
  [("b", .int64 [1, 2]), ("a", .obj [some "x", some "y"])]

/-- Scenario C: a text cell with surrounding spaces in a column whose
other values all match `YYYY-MM-DD`. -/
def exampleTableC : Table :=
  [("d", .obj [some "2023-01-04", some "  2023-01-05  ", some "2023-01-06",
               some "2023-01-07", some "2023-01-08"])]

/-- One row with cells `("a,b", "c")`. -/
def exampleTable10a : Table :=
  [("c1", .obj [some "a,b"]), ("c2", .obj [some "c"])]

/-- One row with cells `("a", "b,c")`, different cell contents under the
same column names. -/
def exampleTable10b : Table :=
  [("c1", .obj [some "a"]), ("c2", .obj [some "b,c"])]

/-! ## Theorems -/

/-- Claim C1 (counterexample): for Scenario A's table the canonical
serialization is not the spec's byte string `"1,x\n2,y\n"` — after the
column sort to `[a, b]` the text cell comes first in each record — and
consequently the order-dependent fingerprint is not the SHA-256 digest
of that byte string. -/
theorem c1_scenario_a_serialization_ne :
    to_csv_string (canonicalTable exampleTableA) ≠ "1,x\n2,y\n" ∧
    generate_order_dependent_fingerprint exampleTableA ≠ sha256hex "1,x\n2,y\n" := by
  constructor
  · decide
  · decide

/-- Claim C1 (amended): Scenario A's canonical table serializes
row-major, fields comma-joined, records terminated by `'\n'`, to exactly
`"x,1\ny,2\n"`, and the order-dependent fingerprint is the SHA-256
lowercase hex digest of that byte string. -/
theorem c1_scenario_a_fingerprint :
    to_csv_string (canonicalTable exampleTableA) = "x,1\ny,2\n" ∧
    generate_order_dependent_fingerprint exampleTableA = sha256hex "x,1\ny,2\n" := by
  constructor
  · decide
  · decide

/-- Claim C6 (counterexample): the padded cell `"  2023-01-05  "` of
Scenario C does not canonicalize to `"2023-01-05"`: the fingerprint
pipelines run the datetime standardizer with the full timestamp format. -/
theorem c6_scenario_c_cell_ne :
    canonCell exampleTableC 0 1 ≠ "2023-01-05" := by decide

/-- Claim C6 (amended): in the canonical table shared by both
fingerprint pipelines, Scenario C's column is detected as a datetime
column by free-form inference (the padded cell defeats every explicit
format) and every cell is rewritten to the full timestamp format; the
padded cell becomes `"2023-01-05 00:00:00"`. -/
theorem c6_scenario_c_canonical :
    canonicalTable exampleTableC =
      [("d", ["2023-01-04 00:00:00", "2023-01-05 00:00:00", "2023-01-06 00:00:00",
              "2023-01-07 00:00:00", "2023-01-08 00:00:00"])] ∧
    canonCell exampleTableC 0 1 = "2023-01-05 00:00:00" := by
  constructor
  · decide
  · decide

/-- Claim C10: joining a row's fields with `','` without quoting makes
the one-row tables with cells `("a,b", "c")` and `("a", "b,c")` — same
column names, different cell contents — collide: both rows serialize to
`"a,b,c"`, so the order-independent fingerprints are equal although the
canonical tables differ. -/
theorem c10_comma_collision :
    generate_order_independent_fingerprint exampleTable10a =
      generate_order_independent_fingerprint exampleTable10b ∧
    canonicalTable exampleTable10a ≠ canonicalTable exampleTable10b ∧
    exampleTable10a.map Prod.fst = exampleTable10b.map Prod.fst := by
  refine ⟨?_, by decide, by decide⟩
  have h : rowStrings (canonicalTable exampleTable10a) =
      rowStrings (canonicalTable exampleTable10b) := by decide
  exact congrArg oiOfRowStrings h

/-! ### C7: the decimal-separator detector -/

theorem splitOnChar_of_not_mem {sep : Char} {l : List Char} (h : sep ∉ l) :
    splitOnChar sep l = [l] := by
  induction l with
  | nil => rfl
  | cons c rest ih =>
    have hc : ¬ c = sep := by
      intro he
      exact h (by rw [← he]; exact List.mem_cons_self c rest)
    have hr : sep ∉ rest := fun hm => h (List.mem_cons_of_mem _ hm)
    simp [splitOnChar, ih hr, hc]

theorem sepEvidenceCode_eq (sep : Char) (v : String) :
    sepEvidenceCode sep v = sepEvidence sep v := by
  by_cases h : sep ∈ cleanNumeric v
  · have hc : (cleanNumeric v).contains sep = true := List.elem_iff.mpr h
    simp only [sepEvidenceCode, sepEvidence]
    rw [hc]
    simp
  · have hc : (cleanNumeric v).contains sep = false := by
      cases hcc : (cleanNumeric v).contains sep
      · rfl
      · exact absurd (List.elem_iff.mp hcc) h
    simp only [sepEvidenceCode, sepEvidence]
    rw [hc, splitOnChar_of_not_mem h]
    simp

theorem countRow_fold (row : List String) (cnt : Nat × Nat) :
    List.foldl (fun cnt v =>
      (cnt.1 + (if sepEvidenceCode ',' v then 1 else 0),
       cnt.2 + (if sepEvidenceCode '.' v then 1 else 0))) cnt row
    = (cnt.1 + row.countP (sepEvidence ','), cnt.2 + row.countP (sepEvidence '.')) := by
  induction row generalizing cnt with
  | nil => simp
  | cons v rest ih =>
    rw [List.foldl_cons, ih]
    simp only [sepEvidenceCode_eq, List.countP_cons, Prod.mk.injEq]
    constructor <;> cases h1 : sepEvidence ',' v <;> cases h2 : sepEvidence '.' v <;>
      simp [h1, h2] <;> omega

theorem countRowSep_spec (row : List String) (cnt : Nat × Nat) :
    countRowSep cnt row =
      (cnt.1 + row.countP (sepEvidence ','), cnt.2 + row.countP (sepEvidence '.')) := by
  cases row with
  | nil => simp [countRowSep]
  | cons v rest =>
    unfold countRowSep
    simp only [List.isEmpty_cons, Bool.false_eq_true, if_false]
    exact countRow_fold (v :: rest) cnt

theorem sample_fold (sample : List (List String)) (cnt : Nat × Nat) :
    sample.foldl countRowSep cnt =
      (cnt.1 + (sample.map (fun r => r.countP (sepEvidence ','))).sum,
       cnt.2 + (sample.map (fun r => r.countP (sepEvidence '.'))).sum) := by
  induction sample generalizing cnt with
  | nil => simp
  | cons r rest ih =>
    simp only [List.foldl_cons, ih, countRowSep_spec, List.map_cons, List.sum_cons]
    rw [Prod.mk.injEq]
    constructor <;> omega


/-- Claim C7: over at most the first 10 rows after the header, each cell
whose digits-and-separators-only cleaned value splits on a candidate
separator into exactly two all-digit parts counts as one piece of
evidence for that separator; the detector returns `','` exactly when the
`','` count strictly exceeds the `'.'` count, and `'.'` in every other
case (including the zero/zero tie). -/
theorem c7_detector_counts_evidence (records : List (List String)) :
    detect_decimal_separator records =
      if evidenceCount records '.' < evidenceCount records ',' then ',' else '.' := by
  simp [detect_decimal_separator, evidenceCount, sample_fold]

/-! ### C8: ordered explicit datetime formats, first success wins -/

theorem firstFormat_eq_find (fmts : List String) (cells : List (Option String)) :
    firstFormat fmts cells = fmts.find? (fun f => cells.all (cellParses f)) := by
  induction fmts with
  | nil => rfl
  | cons f rest ih =>
    simp only [firstFormat, List.find?_cons]
    cases h : cells.all (cellParses f) <;> simp [h, ih]

/-- Claim C8: the standardizer's explicit format list is exactly the six
formats `YYYY-MM-DD HH:MM:SS`, `DD-MM-YYYY HH:MM:SS`, `YYYY-MM-DD HH:MM`,
`DD-MM-YYYY HH:MM`, `YYYY-MM-DD`, `DD-MM-YYYY` in that order, and a text
column whose first all-parsing format (in list order) is `f` is
converted under `f` — later formats are never consulted, as captured by
the `find?` (least-index) characterization of the source's loop. -/
theorem c8_first_success_wins (cells : List (Option String)) (f : String)
    (h : List.find? (fun g => cells.all (cellParses g)) datetime_formats = some f) :
    firstFormat datetime_formats cells = some f ∧
    standardizeColumn false (Column.obj cells) =
      Column.obj ((convertExplicit f cells).map (Option.map (strftimeDT false))) ∧
    datetime_formats = ["%Y-%m-%d %H:%M:%S", "%d-%m-%Y %H:%M:%S", "%Y-%m-%d %H:%M",
                        "%d-%m-%Y %H:%M", "%Y-%m-%d", "%d-%m-%Y"] := by
  have h1 : firstFormat datetime_formats cells = some f := by
    rw [firstFormat_eq_find]; exact h
  refine ⟨h1, ?_, rfl⟩
  simp [standardizeColumn, h1]

/-- Witness for C8 at a concrete column: for `["2023-01-04",
"2023-01-05"]` the first four formats fail and `"%Y-%m-%d"` is the first
success, so the loop selects it. -/
theorem c8_first_success_wins_witness :
    firstFormat datetime_formats [some "2023-01-04", some "2023-01-05"] = some "%Y-%m-%d" :=
  (c8_first_success_wins [some "2023-01-04", some "2023-01-05"] "%Y-%m-%d" (by decide)).1

/-! ### C9: caller-visible mutation of the input table -/

/-- Claim C9 (counterexample): the fingerprint functions do not leave
the caller's table unchanged — on Scenario C's table,
`standardize_datetime_columns` rewrites the date column in the caller's
frame (`df[col] = ...`) before any copy is made. -/
theorem c9_mutates_caller_table :
    (odFingerprintEffect exampleTableC).2 ≠ exampleTableC ∧
    (oiFingerprintEffect exampleTableC).2 ≠ exampleTableC := by
  constructor
  · decide
  · decide

/-- Claim C9 (amended): the caller's table after either fingerprint call
is `standardize_datetime_columns(T)` — the only in-place mutation — so a
table in which no column is detected as a datetime column is returned to
the caller unchanged. -/
theorem c9_no_detection_no_mutation (t : Table) (h : ∀ nc ∈ t, columnDetected nc.2 = false) :
    (odFingerprintEffect t).2 = t ∧ (oiFingerprintEffect t).2 = t := by
  have hstd : standardize_datetime_columns t false = t := by
    show List.map _ t = t
    conv_rhs => rw [← List.map_id t]
    refine List.map_congr_left ?_
    rintro ⟨name, col⟩ hnc
    have hd := h _ hnc
    cases col with
    | int64 cs => rfl
    | dt cs => simp [columnDetected] at hd
    | obj cs =>
      simp only [columnDetected, Bool.or_eq_false_iff] at hd
      obtain ⟨h1, h2⟩ := hd
      have hff : firstFormat datetime_formats cs = none := by
        cases hf : firstFormat datetime_formats cs
        · rfl
        · rw [hf] at h1; simp at h1
      simp [standardizeColumn, hff, h2]
  exact ⟨hstd, hstd⟩

/-- Witness for C9 (amended) at Scenario A's table, which has no
datetime-like column: the caller's table is unchanged. -/
theorem c9_no_detection_no_mutation_witness :
    (odFingerprintEffect exampleTableA).2 = exampleTableA ∧
    (oiFingerprintEffect exampleTableA).2 = exampleTableA :=
  c9_no_detection_no_mutation exampleTableA (by decide)

/-! ### Order properties of the code-point string comparison -/

theorem charListLt_asymm : ∀ (a b : List Char), charListLt a b = true → charListLt b a = false := by
  intro a
  induction a with
  | nil =>
    intro b h
    cases b with
    | nil => simp [charListLt] at h
    | cons y ys => simp [charListLt]
  | cons x xs ih =>
    intro b h
    cases b with
    | nil => simp [charListLt] at h
    | cons y ys =>
      simp only [charListLt] at h ⊢
      by_cases h1 : x.toNat < y.toNat
      · have h2 : ¬ y.toNat < x.toNat := by omega
        simp [h1, h2]
      · by_cases h2 : y.toNat < x.toNat
        · rw [if_neg h1, if_pos h2] at h
          simp at h
        · rw [if_neg h1, if_neg h2] at h
          rw [if_neg h2, if_neg h1]
          exact ih ys h

theorem charListLt_trans :
    ∀ (a b c : List Char), charListLt a b = true → charListLt b c = true →
      charListLt a c = true := by
  intro a
  induction a with
  | nil =>
    intro b c hab hbc
    cases b with
    | nil => simp [charListLt] at hab
    | cons y ys =>
      cases c with
      | nil => simp [charListLt] at hbc
      | cons z zs => simp [charListLt]
  | cons x xs ih =>
    intro b c hab hbc
    cases b with
    | nil => simp [charListLt] at hab
    | cons y ys =>
      cases c with
      | nil => simp [charListLt] at hbc
      | cons z zs =>
        simp only [charListLt] at hab hbc ⊢
        by_cases h1 : x.toNat < y.toNat
        · by_cases h2 : y.toNat < z.toNat
          · have h5 : x.toNat < z.toNat := by omega
            simp [h5]
          · by_cases h3 : z.toNat < y.toNat
            · rw [if_neg h2, if_pos h3] at hbc
              simp at hbc
            · have h5 : x.toNat < z.toNat := by omega
              simp [h5]
        · by_cases h4 : y.toNat < x.toNat
          · rw [if_neg h1, if_pos h4] at hab
            simp at hab
          · rw [if_neg h1, if_neg h4] at hab
            by_cases h2 : y.toNat < z.toNat
            · have h5 : x.toNat < z.toNat := by omega
              simp [h5]
            · by_cases h3 : z.toNat < y.toNat
              · rw [if_neg h2, if_pos h3] at hbc
                simp at hbc
              · rw [if_neg h2, if_neg h3] at hbc
                have h5 : ¬ x.toNat < z.toNat := by omega
                have h6 : ¬ z.toNat < x.toNat := by omega
                rw [if_neg h5, if_neg h6]
                exact ih ys zs hab hbc

theorem charListLt_connex :
    ∀ (a b : List Char), charListLt a b = false → charListLt b a = false → a = b := by
  intro a
  induction a with
  | nil =>
    intro b h1 h2
    cases b with
    | nil => rfl
    | cons y ys => simp [charListLt] at h1
  | cons x xs ih =>
    intro b h1 h2
    cases b with
    | nil => simp [charListLt] at h2
    | cons y ys =>
      simp only [charListLt] at h1 h2
      by_cases hxy : x.toNat < y.toNat
      · rw [if_pos hxy] at h1
        simp at h1
      · by_cases hyx : y.toNat < x.toNat
        · rw [if_pos hyx] at h2
          simp at h2
        · rw [if_neg hxy, if_neg hyx] at h1
          rw [if_neg hyx, if_neg hxy] at h2
          have hn : x.toNat = y.toNat := by omega
          have hc : x = y := Char.ext (UInt32.ext hn)
          rw [hc, ih ys h1 h2]

theorem strLe_iff (a b : String) : strLeRel a b ↔ charListLt b.data a.data = false := by
  unfold strLeRel pyStrLe
  cases charListLt b.data a.data <;> simp

theorem strLe_total (a b : String) : strLeRel a b ∨ strLeRel b a := by
  rw [strLe_iff, strLe_iff]
  cases h : charListLt b.data a.data
  · left; rfl
  · right
    exact charListLt_asymm b.data a.data h

theorem strLe_trans (a b c : String) : strLeRel a b → strLeRel b c → strLeRel a c := by
  rw [strLe_iff, strLe_iff, strLe_iff]
  intro h1 h2
  cases hca : charListLt c.data a.data
  · rfl
  · exfalso
    cases hbc : charListLt b.data c.data
    · have he : b.data = c.data := charListLt_connex b.data c.data hbc h2
      rw [he] at h1
      rw [hca] at h1
      simp at h1
    · have := charListLt_trans b.data c.data a.data hbc hca
      rw [this] at h1
      simp at h1

theorem strLe_antisymm (a b : String) : strLeRel a b → strLeRel b a → a = b := by
  rw [strLe_iff, strLe_iff]
  intro h1 h2
  exact String.ext (charListLt_connex a.data b.data h2 h1)

theorem pySorted_sorted (l : List String) : List.Pairwise strLeRel (pySorted l) :=
  @List.sorted_insertionSort String strLeRel decStrLeRel ⟨strLe_total⟩ ⟨strLe_trans⟩ l

theorem pySorted_congr {l₁ l₂ : List String} (h : l₁.Perm l₂) : pySorted l₁ = pySorted l₂ :=
  @List.eq_of_perm_of_sorted String strLeRel ⟨strLe_antisymm⟩ _ _
    ((List.perm_insertionSort strLeRel l₁).trans (h.trans (List.perm_insertionSort strLeRel l₂).symm))
    (pySorted_sorted l₁) (pySorted_sorted l₂)

theorem oiOfRowStrings_congr {rs₁ rs₂ : List String} (h : rs₁.Perm rs₂) :
    oiOfRowStrings rs₁ = oiOfRowStrings rs₂ := by
  unfold oiOfRowStrings
  rw [pySorted_congr (h.map sha256hex)]

/-- Claim C3: the order-independent fingerprint hashes each canonical
row's comma-joined field string individually, sorts the per-row hex
digests lexicographically (a permutation of the digest multiset, so
duplicate rows keep duplicate digests), concatenates the sorted digests
with no separator, and hashes the concatenation once more. -/
theorem c3_order_independent_structure (t : Table) :
    ∃ D : List String,
      D.Perm ((rowStrings (canonicalTable t)).map sha256hex) ∧
      List.Pairwise strLeRel D ∧
      generate_order_independent_fingerprint t = sha256hex (String.join D) :=
  ⟨pySorted ((rowStrings (canonicalTable t)).map sha256hex),
    List.perm_insertionSort strLeRel _, pySorted_sorted _, rfl⟩

/-! ### C2: row-order invariance of the order-independent fingerprint -/

theorem range_map_getD {α : Type} (cs : List α) (d : α) :
    (List.range cs.length).map (fun i => cs.getD i d) = cs := by
  apply List.ext_getElem
  · simp
  · intro n h1 h2
    simp only [List.getElem_map, List.getElem_range]
    exact List.getD_eq_getElem cs d h2

theorem perm_map_getD {α : Type} {p : List Nat} {cs : List α}
    (hp : p.Perm (List.range cs.length)) (d : α) :
    (p.map (fun i => cs.getD i d)).Perm cs := by
  have h := hp.map (fun i => cs.getD i d)
  rwa [range_map_getD] at h

theorem mem_lt_of_perm_range {p : List Nat} {n : Nat} (hp : p.Perm (List.range n)) :
    ∀ i ∈ p, i < n :=
  fun i hi => List.mem_range.mp (hp.mem_iff.mp hi)

theorem getD_map_point {α β : Type} {p : List Nat} {cs : List α}
    (h : ∀ i ∈ p, i < cs.length) (g : α → β) (d : α) (d' : β) :
    p.map (fun i => (List.map g cs).getD i d') = p.map (fun i => g (cs.getD i d)) := by
  apply List.map_congr_left
  intro i hi
  have hlt := h i hi
  have hlt2 : i < (List.map g cs).length := by simpa using hlt
  rw [List.getD_eq_getElem _ _ hlt2, List.getD_eq_getElem _ _ hlt, List.getElem_map]

theorem perm_all_eq {α : Type} {l₁ l₂ : List α} (h : l₁.Perm l₂) (f : α → Bool) :
    l₁.all f = l₂.all f := by
  cases ha : l₁.all f <;> cases hb : l₂.all f
  · rfl
  · exfalso
    rw [List.all_eq_true] at hb
    have h1 : l₁.all f = true := List.all_eq_true.mpr (fun x hx => hb x (h.mem_iff.mp hx))
    rw [h1] at ha
    simp at ha
  · exfalso
    rw [List.all_eq_true] at ha
    have h1 : l₂.all f = true := List.all_eq_true.mpr (fun x hx => ha x (h.mem_iff.mpr hx))
    rw [h1] at hb
    simp at hb
  · rfl

theorem firstFormat_congr {cells₁ cells₂ : List (Option String)} (h : cells₁.Perm cells₂) :
    ∀ fmts, firstFormat fmts cells₁ = firstFormat fmts cells₂ := by
  intro fmts
  induction fmts with
  | nil => rfl
  | cons f rest ih =>
    simp only [firstFormat]
    rw [perm_all_eq h (cellParses f)]
    cases hc : cells₂.all (cellParses f) <;> simp [hc, ih]

theorem inferAccepted_congr {c₁ c₂ : List (Option String)} (h : c₁.Perm c₂) :
    inferAccepted c₁ = inferAccepted c₂ := by
  unfold inferAccepted convertInfer
  rw [h.length_eq, List.Perm.countP_eq Option.isSome (h.map (fun c => c.bind pdInfer))]

theorem colLength_standardize (b : Bool) (c : Column) :
    colLength (standardizeColumn b c) = colLength c := by
  cases c with
  | int64 cs => rfl
  | dt cs => simp [standardizeColumn, colLength]
  | obj cs =>
    simp only [standardizeColumn]
    cases hf : firstFormat datetime_formats cs
    · by_cases h : inferAccepted cs <;> simp [h, colLength, convertInfer]
    · simp [colLength, convertExplicit]

theorem colLength_strip (c : Column) : colLength (stripColumn c) = colLength c := by
  cases c <;> simp [stripColumn, colLength]

theorem length_columnStrings (c : Column) : (columnStrings c).length = colLength c := by
  cases c <;> simp [columnStrings, colLength]

theorem standardizeColumn_permute {p : List Nat} {c : Column}
    (hp : p.Perm (List.range (colLength c))) :
    standardizeColumn false (permuteColumn p c) = permuteColumn p (standardizeColumn false c) := by
  have hmem : ∀ i ∈ p, i < colLength c := mem_lt_of_perm_range hp
  cases c with
  | int64 cs => rfl
  | dt cs =>
    have hmem' : ∀ i ∈ p, i < cs.length := by simpa [colLength] using hmem
    simp only [permuteColumn, standardizeColumn]
    congr 1
    rw [getD_map_point hmem' (Option.map (strftimeDT false)) none none]
    simp [List.map_map, Function.comp]
  | obj cs =>
    have hmem' : ∀ i ∈ p, i < cs.length := by simpa [colLength] using hmem
    have hperm : (p.map (fun i => cs.getD i none)).Perm cs :=
      perm_map_getD (by simpa [colLength] using hp) none
    simp only [permuteColumn, standardizeColumn]
    rw [firstFormat_congr hperm datetime_formats]
    cases hf : firstFormat datetime_formats cs with
    | some f =>
      simp only [permuteColumn, convertExplicit]
      congr 1
      simp only [List.map_map]
      rw [getD_map_point hmem'
        ((Option.map (strftimeDT false)) ∘ (fun v => v.bind (strptime f))) none none]
      simp [Function.comp]
    | none =>
      rw [inferAccepted_congr hperm]
      by_cases hi : inferAccepted cs
      · simp only [hi, if_true, permuteColumn, convertInfer]
        congr 1
        simp only [List.map_map]
        rw [getD_map_point hmem'
          ((Option.map (strftimeDT false)) ∘ (fun v => v.bind pdInfer)) none none]
        simp [Function.comp]
      · simp [hi, permuteColumn]

theorem strip_permute {p : List Nat} {c : Column} (hmem : ∀ i ∈ p, i < colLength c) :
    stripColumn (permuteColumn p c) = permuteColumn p (stripColumn c) := by
  cases c with
  | int64 cs => rfl
  | dt cs => rfl
  | obj cs =>
    have hmem' : ∀ i ∈ p, i < cs.length := by simpa [colLength] using hmem
    simp only [permuteColumn, stripColumn]
    congr 1
    rw [getD_map_point hmem' (Option.map pyStrip) none none]
    simp [List.map_map, Function.comp]

theorem strings_permute {p : List Nat} {c : Column} (hmem : ∀ i ∈ p, i < colLength c) :
    columnStrings (permuteColumn p c) = p.map (fun i => (columnStrings c).getD i "") := by
  cases c with
  | obj cs =>
    have hmem' : ∀ i ∈ p, i < cs.length := by simpa [colLength] using hmem
    simp only [permuteColumn, columnStrings]
    rw [getD_map_point hmem' (fun v => match v with | none => "" | some s => s) none ""]
    simp [List.map_map, Function.comp]
  | int64 cs =>
    have hmem' : ∀ i ∈ p, i < cs.length := by simpa [colLength] using hmem
    simp only [permuteColumn, columnStrings]
    rw [getD_map_point hmem' (fun n : Int => toString n) 0 ""]
    simp [List.map_map, Function.comp]
  | dt cs =>
    have hmem' : ∀ i ∈ p, i < cs.length := by simpa [colLength] using hmem
    simp only [permuteColumn, columnStrings]
    rw [getD_map_point hmem' (fun v => match v with | none => "" | some d => strftimeDT false d)
      none ""]
    simp [List.map_map, Function.comp]

theorem standardize_permute {t : Table} {p : List Nat} (hw : WFTable t)
    (hp : p.Perm (List.range (nRows t))) :
    standardize_datetime_columns (permuteRows p t) false =
      permuteRows p (standardize_datetime_columns t false) := by
  unfold standardize_datetime_columns permuteRows
  rw [List.map_map, List.map_map]
  apply List.map_congr_left
  intro nc hnc
  have hcl : colLength nc.2 = nRows t := hw _ hnc
  have hp' : p.Perm (List.range (colLength nc.2)) := by rw [hcl]; exact hp
  simp only [Function.comp]
  rw [standardizeColumn_permute hp']

theorem sortByName_permute (p : List Nat) (t : Table) :
    sortByName (permuteRows p t) = permuteRows p (sortByName t) := by
  unfold sortByName permuteRows
  exact (List.map_insertionSort colNameLe colNameLe
    (fun nc => (nc.1, permuteColumn p nc.2)) t (fun a _ b _ => Iff.rfl)).symm

theorem heights_canonical {t : Table} (hw : WFTable t) :
    ∀ col ∈ canonicalTable t, col.2.length = nRows t := by
  intro col hcol
  unfold canonicalTable at hcol
  simp only [List.mem_map] at hcol
  obtain ⟨nc3, hnc3, rfl⟩ := hcol
  obtain ⟨nc2, hnc2, rfl⟩ := hnc3
  have hnc1 : nc2 ∈ standardize_datetime_columns t false :=
    (List.mem_insertionSort colNameLe).mp hnc2
  unfold standardize_datetime_columns at hnc1
  simp only [List.mem_map] at hnc1
  obtain ⟨nc, hnct, rfl⟩ := hnc1
  simp only [length_columnStrings, colLength_strip, colLength_standardize]
  exact hw nc hnct

theorem length_canonical (t : Table) : (canonicalTable t).length = t.length := by
  unfold canonicalTable sortByName standardize_datetime_columns
  simp [List.length_insertionSort]

theorem numRows_canonical {t : Table} (hw : WFTable t) (hne : t ≠ []) :
    numRows (canonicalTable t) = nRows t := by
  cases hc : canonicalTable t with
  | nil =>
    exfalso
    have := length_canonical t
    rw [hc] at this
    exact hne (List.eq_nil_of_length_eq_zero this.symm)
  | cons col rest =>
    have hm : col ∈ canonicalTable t := by rw [hc]; exact List.mem_cons_self col rest
    have := heights_canonical hw col hm
    simp [numRows, this]

theorem canonical_permute {t : Table} {p : List Nat} (hw : WFTable t)
    (hp : p.Perm (List.range (nRows t))) :
    canonicalTable (permuteRows p t) =
      (canonicalTable t).map (fun nc => (nc.1, p.map (fun i => nc.2.getD i ""))) := by
  simp only [canonicalTable]
  rw [standardize_permute hw hp, sortByName_permute]
  simp only [permuteRows, List.map_map]
  apply List.map_congr_left
  intro nc hnc
  have hcl : colLength nc.2 = nRows t := by
    have h1 : nc ∈ standardize_datetime_columns t false :=
      (List.mem_insertionSort colNameLe).mp hnc
    unfold standardize_datetime_columns at h1
    simp only [List.mem_map] at h1
    obtain ⟨nc0, hnct, heq⟩ := h1
    have hcol : nc.2 = standardizeColumn false nc0.2 := by rw [← heq]
    rw [hcol, colLength_standardize]
    exact hw nc0 hnct
  have hmem : ∀ i ∈ p, i < colLength nc.2 := by
    rw [hcl]
    exact mem_lt_of_perm_range hp
  have hmem2 : ∀ i ∈ p, i < colLength (stripColumn nc.2) := by
    rw [colLength_strip]
    exact hmem
  simp only [Function.comp]
  rw [strip_permute hmem, strings_permute hmem2]

theorem tableRows_permute {p : List Nat} {c : List (String × List String)}
    (hne : c ≠ []) :
    tableRows (c.map (fun nc => (nc.1, p.map (fun i => nc.2.getD i "")))) =
      p.map (fun i => c.map (fun col => col.2.getD i "")) := by
  have hnum : numRows (c.map (fun nc => (nc.1, p.map (fun i => nc.2.getD i "")))) = p.length := by
    cases c with
    | nil => exact absurd rfl hne
    | cons col rest => simp [numRows]
  unfold tableRows
  rw [hnum]
  apply List.ext_getElem
  · simp
  · intro k h1 h2
    simp only [List.getElem_map, List.getElem_range, List.map_map]
    apply List.map_congr_left
    intro col hcol
    have hk : k < p.length := by simpa using h2
    simp only [Function.comp]
    rw [List.getD_eq_getElem _ _ (by simpa using hk), List.getElem_map]

theorem rowStrings_permute {t : Table} {p : List Nat} (hw : WFTable t)
    (hp : p.Perm (List.range (nRows t))) (hne : t ≠ []) :
    (rowStrings (canonicalTable (permuteRows p t))).Perm (rowStrings (canonicalTable t)) := by
  have hcne : canonicalTable t ≠ [] := by
    intro h
    have := length_canonical t
    rw [h] at this
    exact hne (List.eq_nil_of_length_eq_zero this.symm)
  rw [canonical_permute hw hp]
  unfold rowStrings
  rw [tableRows_permute hcne]
  unfold tableRows
  rw [numRows_canonical hw hne, List.map_map, List.map_map]
  exact hp.map _

/-- Claim C2: for every well-formed table and every permutation of its
rows, the order-independent fingerprint is unchanged — the per-row
digests form the same multiset, so their lexicographic sort, and hence
the final hash of the concatenated sorted digests, coincide. -/
theorem c2_row_order_invariance (t : Table) (p : List Nat) (hw : WFTable t)
    (hp : p.Perm (List.range (nRows t))) :
    generate_order_independent_fingerprint (permuteRows p t) =
      generate_order_independent_fingerprint t := by
  cases t with
  | nil => rfl
  | cons nc t' =>
    have hne : (nc :: t') ≠ ([] : Table) := by simp
    exact oiOfRowStrings_congr (rowStrings_permute hw hp hne)

/-- Witness for C2: swapping the two rows of Scenario A's table leaves
the order-independent fingerprint unchanged. -/
theorem c2_row_order_invariance_witness :
    generate_order_independent_fingerprint (permuteRows [1, 0] exampleTableA) =
      generate_order_independent_fingerprint exampleTableA :=
  c2_row_order_invariance exampleTableA [1, 0] (by unfold WFTable; decide) (by decide)
